import Mathlib

/-!
Verification development for the path-translation and patch-application
engine of the WSL distro launcher (namespace Ubuntu, header Patch.h).

The repository ships only the test suite of the engine
(DistroLauncher-Tests/PatchTests.cpp); the implementation header Patch.h
is absent.  The definitions below therefore model the engine from the
design specification, with the in-repository tests pinning down every
behaviour they exercise.  Byte streams and paths are modelled as lists of
characters; the filesystem visible to the engine is an association list
from host paths to file contents together with the set of directories
that exist.
-/

set_option autoImplicit false

deriving instance DecidableEq for Except

namespace Ubuntu

/-- Byte/character sequence: file contents and paths are plain char lists. -/
abbrev Str := List Char

/-! ## Path translation -/

/-- Modelled from the spec: error kinds of the engine (section 7 of the
design document); Patch.h is absent from the repository. -/
inductive PatchError where
  | InvalidPath
  | DirectoryCreationError
  | TransformationFailure
  | WriteError
deriving DecidableEq, Repr

/-- Split a character list at every occurrence of `sep`.  Mirrors the
decomposition of a generic-format path into components. -/
def splitOnChar (sep : Char) : Str → List Str
  | [] => [[]]
  | c :: rest =>
    if c = sep then
      [] :: splitOnChar sep rest
    else
      match splitOnChar sep rest with
      | [] => [[c]]
      | s :: ss => (c :: s) :: ss

/-- The POSIX segments of a guest path: split on the forward slash and
drop empty pieces (consecutive or trailing separators contribute no
component, as in std::filesystem generic paths). -/
def posixSegments (p : Str) : List Str :=
  (splitOnChar '/' p).filter (fun s => !s.isEmpty)

/-- Host-native join: append each segment to the accumulated path behind a
single backslash, the Windows preferred separator.  The starting path is
treated as an opaque prefix and reproduced verbatim. -/
def hostJoin (hostPfx : Str) (segments : List Str) : Str :=
  segments.foldl (fun acc seg => acc ++ '\\' :: seg) hostPfx

/-- Modelled from the spec: `translate(hostPrefix, guestAbsolutePath)`,
the contract of `Patch::Patcher::translatedPath` (Patch.h is absent from
the repository).  The guest path must be absolute POSIX (leading `/`),
otherwise the call fails with `InvalidPath`; on success the leading
separator is stripped and the remaining segments are joined onto the
host prefix with host-native semantics.  The behaviour on valid input is
pinned down by the tests Patch.PathTranslation, PathTranslation2 and
PathTranslation3. -/
def translate (hostPfx guest : Str) : Except PatchError Str :=
  match guest with
  | [] => .error .InvalidPath
  | c :: _ =>
    if c = '/' then .ok (hostJoin hostPfx (posixSegments guest))
    else .error .InvalidPath

/-- Modelled from the spec: `Patch::Patcher` holds the host mount prefix
and the guest configuration file path (Patch.h is absent from the
repository). -/
structure Patcher where
  hostPfx : Str
  linuxFile : Str
deriving DecidableEq

/-- Modelled from the spec: `Patcher::translatedPath` resolves the guest
path under the host prefix via `translate`. -/
def Patcher.translatedPath (p : Patcher) : Except PatchError Str :=
  translate p.hostPfx p.linuxFile

/-! ## Transformations (TransformationCatalogue) -/

/-- Whitespace characters trimmed when looking for the label token. -/
def isBlankChar (c : Char) : Bool :=
  c = ' ' || c = '\t'

/-- The cloud-image root-filesystem label token. -/
def cloudImgLabel : Str := "LABEL=cloudimg-rootfs".toList

/-- A line matches when its content, after trimming leading whitespace,
begins with the label token. -/
def matchesLabel (line : Str) : Bool :=
  cloudImgLabel.isPrefixOf (line.dropWhile isBlankChar)

/-- Decompose a stream into lines with `std::getline` semantics: each line
is the text up to (and not including) the next newline or end of stream;
an empty stream yields no lines, and a trailing newline does not produce
an extra empty line. -/
def getLines : Str → List Str
  | [] => []
  | c :: rest =>
    if c = '\n' then
      [] :: getLines rest
    else
      match getLines rest with
      | [] => [[c]]
      | l :: ls => (c :: l) :: ls

/-- Reassemble lines: a single newline between consecutive lines, none at
the end. -/
def joinLines : List Str → Str
  | [] => []
  | [l] => l
  | l :: ls => l ++ '\n' :: joinLines ls

namespace PatchingFunctions

/-- Modelled from the spec: the pure content function of
`PatchingFunctions::RemoveCloudImgLabel` (Patch.h is absent from the
repository).  It reads the original content line by line, drops every
line whose trimmed content begins with the cloud-image label token and
copies all other lines, separated by single newlines.  The tests
PatchingFn.CloudImgLabel and PatchingFn.CloudImgLabel2 pin down that no
terminator follows the last kept line and that removing every line
yields empty output. -/
def RemoveCloudImgLabel (original : Str) : Str :=
  joinLines ((getLines original).filter (fun l => !matchesLabel l))

end PatchingFunctions

/-- The lines of the original content that the filter keeps: those whose
trimmed content does not begin with the label token. -/
def keptLines (s : Str) : List Str :=
  (getLines s).filter (fun l => !matchesLabel l)

/-- Decompose a stream into lines that carry their own terminators: each
piece ends with the newline that closed it, except a final piece that the
stream ended without one.  Used to state the terminator-preserving
reading of the line filter. -/
def linesWithTerminators : Str → List Str
  | [] => []
  | c :: rest =>
    if c = '\n' then
      ['\n'] :: linesWithTerminators rest
    else
      match linesWithTerminators rest with
      | [] => [[c]]
      | l :: ls => (c :: l) :: ls

/-- The claim's reading of the line filter, stated from the claim's own
words for comparison with the source-modelled function: every line whose
trimmed content does not begin with the label token is copied to the
output verbatim together with its original line terminator. -/
def removeLabelLinesSpec (s : Str) : Str :=
  ((linesWithTerminators s).filter (fun l => !matchesLabel l)).flatten

/-- Transformations as a tagged variant, so that patch specs are equality
comparable (the C++ stores a function pointer and compares it by
identity).  `writeLiteral` ignores the original content and emits a fixed
payload; `appendLiteral` copies the original verbatim and appends a fixed
payload; `removeCloudImgLabel` runs the catalogue line filter.  Every one
of these transformations succeeds on every input, as their C++
counterparts report `!stream.fail()`. -/
inductive PatchFn where
  | removeCloudImgLabel
  | writeLiteral (payload : Str)
  | appendLiteral (payload : Str)
deriving DecidableEq

/-- Run a transformation: original content in, new content out, `none` on
transformation failure. -/
def runPatchFn : PatchFn → Str → Option Str
  | .removeCloudImgLabel, orig => some (PatchingFunctions.RemoveCloudImgLabel orig)
  | .writeLiteral x, _ => some x
  | .appendLiteral y, orig => some (orig ++ y)

/-! ## Filesystem model and the patch engine -/

/-- The host-visible filesystem: an association list from host paths to
file contents (first binding wins) and the list of directories that
exist. -/
structure FS where
  files : List (Str × Str)
  dirs : List Str
deriving DecidableEq

/-- Content of the file at `p`, or `none` when no such file exists. -/
def FS.readFile (fs : FS) (p : Str) : Option Str :=
  (fs.files.find? (fun kv => kv.1 == p)).map (fun kv => kv.2)

/-- Write `content` to the file at `p`, fully replacing any previous
content. -/
def FS.writeFile (fs : FS) (p : Str) (content : Str) : FS :=
  { fs with files := (p, content) :: fs.files.filter (fun kv => !(kv.1 == p)) }

/-- Create every directory in `ds` (creation of an existing directory is
treated as success, so duplicates are harmless). -/
def FS.mkdirs (fs : FS) (ds : List Str) : FS :=
  { fs with dirs := ds ++ fs.dirs }

/-- Modelled from the spec: path translation threaded through the engine
state, used to state its side-effect freedom ("No state, no I/O"): the
translation consults no filesystem state and passes it through
unchanged. -/
def Patcher.translatedPathOn (p : Patcher) (fs : FS) : Except PatchError Str × FS :=
  (p.translatedPath, fs)

/-- The ancestor directories of the destination obtained by joining
`segs` onto `hostPfx`: the host prefix itself and every proper
intermediate join. -/
def ancestorDirs (hostPfx : Str) (segs : List Str) : List Str :=
  (List.range segs.length).map (fun i => hostJoin hostPfx (segs.take i))

/-- Modelled from the spec: the `Patch` aggregate of Patch.h (absent from
the repository): a guest configuration file path bound to one
transformation. -/
structure Patch where
  configFilePath : Str
  patchFn : PatchFn
deriving DecidableEq

/-- Modelled from the spec: `Patch::apply(prefix)` (Patch.h is absent
from the repository).  Resolve the destination host path via the path
translation, create every ancestor directory of the destination, read
the existing content (empty when the file is missing), run the
transformation and write its output back, fully replacing any previous
content.  The behaviour is pinned down by the tests
PatchTest.ApplyCreationPatch, ApplyModPatch and ApplyRewritePatch. -/
def Patch.apply (p : Patch) (hostPfx : Str) (fs : FS) : Except PatchError FS :=
  match translate hostPfx p.configFilePath with
  | .error e => .error e
  | .ok dest =>
    let segs := posixSegments p.configFilePath
    let fs1 := fs.mkdirs (ancestorDirs hostPfx segs)
    let orig := (fs1.readFile dest).getD []
    match runPatchFn p.patchFn orig with
    | none => .error .TransformationFailure
    | some out => .ok (fs1.writeFile dest out)

/-! ## Patch registry -/

/-- Modelled from the spec: the release-agnostic patch set, applied to
every distribution release (Patch.h is absent from the repository; the
specification and the wiring test name exactly one member, the binding
of `/etc/fstab` to `RemoveCloudImgLabel`). -/
def releaseAgnosticPatches : List Patch :=
  [⟨"/etc/fstab".toList, .removeCloudImgLabel⟩]

/-- Modelled from the spec: the process-wide patch registry, partitioned
into the release-agnostic set and the release-specific mapping. -/
structure PatchRegistry where
  releaseAgnostic : List Patch
  releaseSpecific : List (Str × List Patch)

/-- Modelled from the spec: `effectivePatches(release)` is the
release-agnostic set together with the release-specific set of the given
release (empty when the release is unknown). -/
def PatchRegistry.effectivePatches (reg : PatchRegistry) (release : Str) : List Patch :=
  reg.releaseAgnostic ++ (((reg.releaseSpecific.find? (fun kv => kv.1 == release)).map
    (fun kv => kv.2)).getD [])

/-! ## Helper lemmas -/

theorem splitOnChar_no_sep (sep : Char) (a : Str) (h : sep ∉ a) :
    splitOnChar sep a = [a] := by
  induction a with
  | nil => rfl
  | cons c t ih =>
    have hc : ¬ c = sep := fun hEq => h (hEq ▸ List.mem_cons_self c t)
    have ht := ih (fun hm => h (List.mem_cons_of_mem c hm))
    simp only [splitOnChar, if_neg hc, ht]

theorem splitOnChar_append (sep : Char) (a s : Str) (h : sep ∉ a) :
    splitOnChar sep (a ++ sep :: s) = a :: splitOnChar sep s := by
  induction a with
  | nil => simp [splitOnChar]
  | cons c t ih =>
    have hc : ¬ c = sep := fun hEq => h (hEq ▸ List.mem_cons_self c t)
    have ht := ih (fun hm => h (List.mem_cons_of_mem c hm))
    rw [List.cons_append]
    simp only [splitOnChar, if_neg hc, ht]

theorem splitOnChar_ne_nil (sep : Char) (s : Str) : splitOnChar sep s ≠ [] := by
  cases s with
  | nil => simp [splitOnChar]
  | cons c rest =>
    unfold splitOnChar
    split
    · simp
    · split <;> simp

theorem splitOnChar_sep_cons (sep : Char) (s : Str) :
    splitOnChar sep (sep :: s) = [] :: splitOnChar sep s := by
  simp [splitOnChar]

theorem posixSegments_three (a b c : Str)
    (ha : a ≠ []) (hb : b ≠ []) (hc : c ≠ [])
    (ha2 : '/' ∉ a) (hb2 : '/' ∉ b) (hc2 : '/' ∉ c) :
    posixSegments ('/' :: (a ++ '/' :: (b ++ '/' :: c))) = [a, b, c] := by
  unfold posixSegments
  rw [splitOnChar_sep_cons, splitOnChar_append '/' a _ ha2,
    splitOnChar_append '/' b _ hb2, splitOnChar_no_sep '/' c hc2]
  cases a with
  | nil => exact absurd rfl ha
  | cons x xs =>
    cases b with
    | nil => exact absurd rfl hb
    | cons y ys =>
      cases c with
      | nil => exact absurd rfl hc
      | cons z zs => simp [List.filter]

theorem hostJoin_nil (p : Str) : hostJoin p [] = p := rfl

theorem hostJoin_cons (p s : Str) (ss : List Str) :
    hostJoin p (s :: ss) = hostJoin (p ++ '\\' :: s) ss := rfl

theorem hostJoin_isPrefix (p : Str) (ss : List Str) : p <+: hostJoin p ss := by
  induction ss generalizing p with
  | nil => exact List.prefix_refl p
  | cons s ss ih =>
    rw [hostJoin_cons]
    exact (List.prefix_append p ('\\' :: s)).trans (ih (p ++ '\\' :: s))

theorem translate_nil (pfx : Str) : translate pfx [] = .error .InvalidPath := rfl

theorem translate_slash (pfx rest : Str) :
    translate pfx ('/' :: rest) = .ok (hostJoin pfx (posixSegments ('/' :: rest))) := by
  simp [translate]

theorem translate_not_slash (pfx : Str) (c : Char) (t : Str) (hc : ¬ c = '/') :
    translate pfx (c :: t) = .error .InvalidPath := by
  simp [translate, if_neg hc]

theorem Patch.apply_eq (g : Str) (fn : PatchFn) (pfx : Str) (fs : FS) :
    Patch.apply ⟨g, fn⟩ pfx fs
      = match translate pfx g with
        | .error e => .error e
        | .ok dest =>
          match runPatchFn fn ((fs.readFile dest).getD []) with
          | none => .error .TransformationFailure
          | some out =>
            .ok ((fs.mkdirs (ancestorDirs pfx (posixSegments g))).writeFile dest out) := rfl

/-! ## Claim theorems -/

/-- C1: for every host-native prefix `P` and every guest absolute POSIX
path of the form `/a/b/c`, the path translation `Patcher::translatedPath`
returns exactly the host-native join of `P` with the segments `a`, `b`,
`c` — the prefix followed by each segment behind a single host
separator — with no validation of `P`. -/
theorem C1_translatedPath_is_hostJoin (P a b c : Str)
    (ha : a ≠ []) (hb : b ≠ []) (hc : c ≠ [])
    (ha2 : '/' ∉ a) (hb2 : '/' ∉ b) (hc2 : '/' ∉ c) :
    Patcher.translatedPath ⟨P, '/' :: (a ++ '/' :: (b ++ '/' :: c))⟩
        = .ok (hostJoin P [a, b, c]) ∧
      hostJoin P [a, b, c] = P ++ '\\' :: a ++ '\\' :: b ++ '\\' :: c := by
  constructor
  · show translate P ('/' :: (a ++ '/' :: (b ++ '/' :: c))) = _
    rw [translate_slash, posixSegments_three a b c ha hb hc ha2 hb2 hc2]
  · simp [hostJoin, List.append_assoc]

/-- Witness for C1 at the Windows 11 prefix of the test suite and the
guest path `/etc/default/locale`. -/
theorem C1_witness :
    Patcher.translatedPath ⟨"\\\\wsl.localhost\\Ubuntu22.04LTS".toList,
        '/' :: ("etc".toList ++ '/' :: ("default".toList ++ '/' :: "locale".toList))⟩
      = .ok (hostJoin "\\\\wsl.localhost\\Ubuntu22.04LTS".toList
          ["etc".toList, "default".toList, "locale".toList]) :=
  (C1_translatedPath_is_hostJoin "\\\\wsl.localhost\\Ubuntu22.04LTS".toList
    "etc".toList "default".toList "locale".toList
    (by decide) (by decide) (by decide) (by decide) (by decide) (by decide)).1

/-- C8: the path translation is deterministic and has no filesystem side
effects: threaded through the engine state it returns the filesystem
unchanged, its result is the pure `translatedPath` value, and the result
does not depend on the filesystem state. -/
theorem C8_translation_pure (p : Patcher) (fs : FS) :
    (p.translatedPathOn fs).2 = fs ∧
      (p.translatedPathOn fs).1 = p.translatedPath ∧
      ∀ fs2 : FS, (p.translatedPathOn fs2).1 = (p.translatedPathOn fs).1 :=
  ⟨rfl, rfl, fun _ => rfl⟩

/-- Witness for C8 at a concrete patcher and a nonempty filesystem. -/
theorem C8_witness :
    ((Patcher.mk "C:\\Temp".toList "/etc/fstab".toList).translatedPathOn
        ⟨[("C:\\Temp\\etc\\fstab".toList, "x".toList)], []⟩).2
      = ⟨[("C:\\Temp\\etc\\fstab".toList, "x".toList)], []⟩ :=
  (C8_translation_pure (Patcher.mk "C:\\Temp".toList "/etc/fstab".toList)
    ⟨[("C:\\Temp\\etc\\fstab".toList, "x".toList)], []⟩).1

/-- C9: the path translation requires an absolute POSIX guest path; for
every guest path not beginning with the forward slash it fails with the
`InvalidPath` error instead of producing a host path, and applying a
patch bound to such a path fails the same way instead of touching the
filesystem. -/
theorem C9_invalid_path (pfx g : Str) (h : g.head? ≠ some '/') :
    translate pfx g = .error .InvalidPath ∧
      ∀ (fn : PatchFn) (fs : FS), Patch.apply ⟨g, fn⟩ pfx fs = .error .InvalidPath := by
  have ht : translate pfx g = .error .InvalidPath := by
    cases g with
    | nil => rfl
    | cons c t =>
      have hc : ¬ c = '/' := by simpa using h
      exact translate_not_slash pfx c t hc
  refine ⟨ht, fun fn fs => ?_⟩
  rw [Patch.apply_eq, ht]

/-- Witness for C9 at the relative guest path `etc/fstab`. -/
theorem C9_witness :
    translate "C:\\Temp".toList "etc/fstab".toList = .error .InvalidPath ∧
      ∀ (fn : PatchFn) (fs : FS),
        Patch.apply ⟨"etc/fstab".toList, fn⟩ "C:\\Temp".toList fs
          = .error .InvalidPath :=
  C9_invalid_path "C:\\Temp".toList "etc/fstab".toList (by decide)

/-- C10: the translated path begins with the host prefix reproduced
byte for byte — the prefix, non-canonical separators and host-reserved
characters included, is an unchanged initial run of the output. -/
theorem C10_pfx_verbatim (pfx g out : Str) (h : translate pfx g = .ok out) :
    pfx <+: out := by
  cases g with
  | nil => rw [translate_nil] at h; exact absurd h (by simp)
  | cons c t =>
    by_cases hc : c = '/'
    · subst hc
      rw [translate_slash] at h
      cases h
      exact hostJoin_isPrefix pfx _
    · rw [translate_not_slash pfx c t hc] at h
      exact absurd h (by simp)

/-- Witness for C10 at the doubled-backslash prefix of the test
Patch.PathTranslation3: the non-canonical `C:\\Temp` survives unchanged
at the front of the output. -/
theorem C10_witness :
    "C:\\\\Temp".toList <+: "C:\\\\Temp\\root\\here-I-am".toList :=
  C10_pfx_verbatim "C:\\\\Temp".toList "/root/here-I-am".toList
    "C:\\\\Temp\\root\\here-I-am".toList (by decide)

theorem FS.readFile_writeFile_self (fs : FS) (p c : Str) :
    (fs.writeFile p c).readFile p = some c := by
  simp [FS.readFile, FS.writeFile, List.find?]

theorem FS.dirs_writeFile (fs : FS) (p c : Str) :
    (fs.writeFile p c).dirs = fs.dirs := rfl

theorem FS.mem_dirs_mkdirs (fs : FS) (ds : List Str) (d : Str) (h : d ∈ ds) :
    d ∈ (fs.mkdirs ds).dirs :=
  List.mem_append_left fs.dirs h

/-- C2: applying a patch whose transformation ignores the original
content and writes a fixed payload `X`, when the destination file does
not exist, succeeds and leaves the destination holding content exactly
`X`, with every ancestor directory of the destination created. -/
theorem C2_creation_patch (pfx rest payload : Str) (fs : FS)
    (habsent : fs.readFile (hostJoin pfx (posixSegments ('/' :: rest))) = none) :
    ∃ fs1,
      Patch.apply ⟨'/' :: rest, .writeLiteral payload⟩ pfx fs = .ok fs1 ∧
        fs1.readFile (hostJoin pfx (posixSegments ('/' :: rest))) = some payload ∧
        ∀ d ∈ ancestorDirs pfx (posixSegments ('/' :: rest)), d ∈ fs1.dirs := by
  refine ⟨(fs.mkdirs (ancestorDirs pfx (posixSegments ('/' :: rest)))).writeFile
    (hostJoin pfx (posixSegments ('/' :: rest))) payload, ?_, ?_, ?_⟩
  · rw [Patch.apply_eq, translate_slash]; rfl
  · exact FS.readFile_writeFile_self _ _ _
  · intro d hd
    rw [FS.dirs_writeFile]
    exact FS.mem_dirs_mkdirs fs _ d hd

/-- Witness for C2 at the end-to-end scenario of the claim: prefix
`\\host\DistroRoot`, guest path
`/etc/systemd/system/funny.service.d/00-wsl.conf` and the systemd
payload, starting from an empty filesystem. -/
theorem C2_witness :
    ∃ fs1,
      Patch.apply ⟨"/etc/systemd/system/funny.service.d/00-wsl.conf".toList,
          .writeLiteral "[Unit]\nDisable=Forever\n".toList⟩
          "\\\\host\\DistroRoot".toList ⟨[], []⟩ = .ok fs1 ∧
        fs1.readFile (hostJoin "\\\\host\\DistroRoot".toList
            (posixSegments "/etc/systemd/system/funny.service.d/00-wsl.conf".toList))
          = some "[Unit]\nDisable=Forever\n".toList ∧
        ∀ d ∈ ancestorDirs "\\\\host\\DistroRoot".toList
            (posixSegments "/etc/systemd/system/funny.service.d/00-wsl.conf".toList),
          d ∈ fs1.dirs :=
  C2_creation_patch "\\\\host\\DistroRoot".toList
    "etc/systemd/system/funny.service.d/00-wsl.conf".toList
    "[Unit]\nDisable=Forever\n".toList ⟨[], []⟩ rfl

/-- C3: applying a patch whose transformation copies the original
content verbatim and then appends `Y`, when the destination pre-exists
with content `O`, succeeds and leaves the destination holding exactly
the concatenation `O ++ Y`. -/
theorem C3_mod_patch (pfx rest O Y : Str) (fs : FS)
    (hpre : fs.readFile (hostJoin pfx (posixSegments ('/' :: rest))) = some O) :
    ∃ fs1,
      Patch.apply ⟨'/' :: rest, .appendLiteral Y⟩ pfx fs = .ok fs1 ∧
        fs1.readFile (hostJoin pfx (posixSegments ('/' :: rest))) = some (O ++ Y) := by
  refine ⟨(fs.mkdirs (ancestorDirs pfx (posixSegments ('/' :: rest)))).writeFile
    (hostJoin pfx (posixSegments ('/' :: rest))) (O ++ Y), ?_, ?_⟩
  · rw [Patch.apply_eq, translate_slash]
    simp [hpre, runPatchFn]
  · exact FS.readFile_writeFile_self _ _ _

/-- Witness for C3 at the scenario of the test PatchTest.ApplyModPatch:
`/etc/wsl.conf` pre-exists with the sample original contents and the
`[boot]` payload is appended. -/
theorem C3_witness :
    ∃ fs1,
      Patch.apply ⟨"/etc/wsl.conf".toList,
          .appendLiteral "[boot]\nsystemd=true".toList⟩ "C:\\Temp".toList
          ⟨[("C:\\Temp\\etc\\wsl.conf".toList,
             "\n[user]\ndefaultUid=1000\n\n[mount]\noptions=metadata\n".toList)], []⟩
        = .ok fs1 ∧
        fs1.readFile (hostJoin "C:\\Temp".toList (posixSegments "/etc/wsl.conf".toList))
          = some ("\n[user]\ndefaultUid=1000\n\n[mount]\noptions=metadata\n".toList
              ++ "[boot]\nsystemd=true".toList) :=
  C3_mod_patch "C:\\Temp".toList "etc/wsl.conf".toList
    "\n[user]\ndefaultUid=1000\n\n[mount]\noptions=metadata\n".toList
    "[boot]\nsystemd=true".toList
    ⟨[("C:\\Temp\\etc\\wsl.conf".toList,
       "\n[user]\ndefaultUid=1000\n\n[mount]\noptions=metadata\n".toList)], []⟩
    (by decide)

/-- C4: applying a patch whose transformation disregards the original
content and writes `Z`, when the destination pre-exists with content
`O`, succeeds and leaves the destination holding exactly `Z`: the write
fully replaces the previous content. -/
theorem C4_rewrite_patch (pfx rest O Z : Str) (fs : FS)
    (hpre : fs.readFile (hostJoin pfx (posixSegments ('/' :: rest))) = some O) :
    ∃ fs1,
      Patch.apply ⟨'/' :: rest, .writeLiteral Z⟩ pfx fs = .ok fs1 ∧
        fs1.readFile (hostJoin pfx (posixSegments ('/' :: rest))) = some Z := by
  refine ⟨(fs.mkdirs (ancestorDirs pfx (posixSegments ('/' :: rest)))).writeFile
    (hostJoin pfx (posixSegments ('/' :: rest))) Z, ?_, ?_⟩
  · rw [Patch.apply_eq, translate_slash]; rfl
  · exact FS.readFile_writeFile_self _ _ _

/-- Witness for C4 at the scenario of the test
PatchTest.ApplyRewritePatch: `/etc/wsl.conf` pre-exists with the sample
original contents and is rewritten with the `[boot]` payload alone. -/
theorem C4_witness :
    ∃ fs1,
      Patch.apply ⟨"/etc/wsl.conf".toList,
          .writeLiteral "[boot]\nsystemd=true".toList⟩ "C:\\Temp".toList
          ⟨[("C:\\Temp\\etc\\wsl.conf".toList,
             "\n[user]\ndefaultUid=1000\n\n[mount]\noptions=metadata\n".toList)], []⟩
        = .ok fs1 ∧
        fs1.readFile (hostJoin "C:\\Temp".toList (posixSegments "/etc/wsl.conf".toList))
          = some "[boot]\nsystemd=true".toList :=
  C4_rewrite_patch "C:\\Temp".toList "etc/wsl.conf".toList
    "\n[user]\ndefaultUid=1000\n\n[mount]\noptions=metadata\n".toList
    "[boot]\nsystemd=true".toList
    ⟨[("C:\\Temp\\etc\\wsl.conf".toList,
       "\n[user]\ndefaultUid=1000\n\n[mount]\noptions=metadata\n".toList)], []⟩
    (by decide)

theorem getLines_append_newline (a s : Str) (h : '\n' ∉ a) :
    getLines (a ++ '\n' :: s) = a :: getLines s := by
  induction a with
  | nil => simp [getLines]
  | cons c t ih =>
    have hc : ¬ c = '\n' := fun hEq => h (hEq ▸ List.mem_cons_self c t)
    have ht := ih (fun hm => h (List.mem_cons_of_mem c hm))
    rw [List.cons_append]
    simp only [getLines, if_neg hc, ht]

theorem joinLines_cons_cons (a b : Str) (t : List Str) :
    joinLines (a :: b :: t) = (a ++ ['\n']) ++ joinLines (b :: t) := by
  simp [joinLines]

theorem joinLines_mem_infix (l : Str) (ls : List Str) (h : l ∈ ls) :
    l <:+: joinLines ls := by
  induction ls with
  | nil => cases h
  | cons a t ih =>
    cases t with
    | nil =>
      rw [List.mem_singleton.mp h]
      exact List.infix_refl (joinLines [a])
    | cons b t2 =>
      rcases List.mem_cons.mp h with rfl | hmem
      · rw [joinLines_cons_cons]
        exact ((List.prefix_append l ['\n']).trans
          (List.prefix_append (l ++ ['\n']) (joinLines (b :: t2)))).isInfix
      · rw [joinLines_cons_cons]
        exact (ih hmem).trans (List.suffix_append (a ++ ['\n']) (joinLines (b :: t2))).isInfix

theorem joinLines_getLast_suffix (l : Str) (ls : List Str) (h : ls.getLast? = some l) :
    l <:+ joinLines ls := by
  induction ls with
  | nil => simp at h
  | cons a t ih =>
    cases t with
    | nil =>
      have : a = l := by simpa [List.getLast?] using h
      rw [← this]
      exact List.suffix_refl (joinLines [a])
    | cons b t2 =>
      rw [List.getLast?_cons_cons] at h
      rw [joinLines_cons_cons]
      exact (ih h).trans (List.suffix_append (a ++ ['\n']) (joinLines (b :: t2)))

/-- C5: the label-removing line filter applied to a single-line input
consisting solely of a matching label line yields empty output; applied
to a two-line input of a non-matching line followed by a matching label
line (leading whitespace on the matching line included) it yields the
first line alone, with no residual blank line appended. -/
theorem C5_remove_label_lines (C L : Str)
    (hC : matchesLabel C = false) (hCn : '\n' ∉ C)
    (hL : matchesLabel L = true) (hLn : '\n' ∉ L) :
    PatchingFunctions.RemoveCloudImgLabel (L ++ ['\n']) = [] ∧
      PatchingFunctions.RemoveCloudImgLabel (C ++ '\n' :: (L ++ ['\n'])) = C := by
  have h1 : getLines (L ++ ['\n']) = [L] := by
    simpa [getLines] using getLines_append_newline L [] hLn
  have h2 : getLines (C ++ '\n' :: (L ++ ['\n'])) = [C, L] := by
    rw [getLines_append_newline C (L ++ ['\n']) hCn, h1]
  constructor
  · simp [PatchingFunctions.RemoveCloudImgLabel, h1, List.filter, hL, joinLines]
  · simp [PatchingFunctions.RemoveCloudImgLabel, h2, List.filter, hL, hC, joinLines]

/-- Witness for C5 at the sample lines of the tests
PatchingFn.CloudImgLabel and CloudImgLabel2: the 18.04 fstab label line
(with leading whitespace) and the comment line. -/
theorem C5_witness :
    PatchingFunctions.RemoveCloudImgLabel
        ("    LABEL=cloudimg-rootfs\t/\t ext4\tdefaults\t0 1".toList ++ ['\n']) = [] ∧
      PatchingFunctions.RemoveCloudImgLabel
        ("# This is a comment.".toList
          ++ '\n' :: ("    LABEL=cloudimg-rootfs\t/\t ext4\tdefaults\t0 1".toList ++ ['\n']))
        = "# This is a comment.".toList :=
  C5_remove_label_lines "# This is a comment.".toList
    "    LABEL=cloudimg-rootfs\t/\t ext4\tdefaults\t0 1".toList
    (by decide) (by decide) (by decide) (by decide)

/-- C6 (counterexample): on the two-line input of the test
PatchingFn.CloudImgLabel2 the kept comment line had the newline
terminator in the original, but the code's output carries no terminator
after it; the terminator-preserving reading of the claim predicts a
different output. -/
theorem C6_counterexample :
    removeLabelLinesSpec
        ("# This is a comment.\n    LABEL=cloudimg-rootfs\t/\t ext4\tdefaults\t0 1\n".toList)
      = "# This is a comment.\n".toList ∧
    PatchingFunctions.RemoveCloudImgLabel
        ("# This is a comment.\n    LABEL=cloudimg-rootfs\t/\t ext4\tdefaults\t0 1\n".toList)
      = "# This is a comment.".toList ∧
    PatchingFunctions.RemoveCloudImgLabel
        ("# This is a comment.\n    LABEL=cloudimg-rootfs\t/\t ext4\tdefaults\t0 1\n".toList)
      ≠ removeLabelLinesSpec
        ("# This is a comment.\n    LABEL=cloudimg-rootfs\t/\t ext4\tdefaults\t0 1\n".toList) :=
  ⟨by decide, by decide, by decide⟩

/-- C6 (amended): every line whose trimmed content does not begin with
the label token is kept and appears verbatim (leading and trailing
whitespace included) inside the output; kept lines are separated by
single newlines, so a kept line's terminator survives exactly when
another kept line follows, and the last kept line ends the output with
no terminator appended. -/
theorem C6_kept_lines_verbatim (s : Str) :
    PatchingFunctions.RemoveCloudImgLabel s = joinLines (keptLines s) ∧
      (∀ l ∈ keptLines s,
        matchesLabel l = false ∧ l <:+: PatchingFunctions.RemoveCloudImgLabel s) ∧
      ∀ l, (keptLines s).getLast? = some l →
        l <:+ PatchingFunctions.RemoveCloudImgLabel s := by
  refine ⟨rfl, fun l hl => ⟨?_, ?_⟩, fun l hl => ?_⟩
  · simpa using List.of_mem_filter hl
  · exact joinLines_mem_infix l (keptLines s) hl
  · exact joinLines_getLast_suffix l (keptLines s) hl

/-- Witness for C6 (amended) at the input of the test
PatchingFn.CloudImgLabel2: the kept comment line is a terminator-free
final run of the output. -/
theorem C6_witness :
    "# This is a comment.".toList <:+
      PatchingFunctions.RemoveCloudImgLabel
        ("# This is a comment.\n    LABEL=cloudimg-rootfs\t/\t ext4\tdefaults\t0 1\n".toList) :=
  (C6_kept_lines_verbatim
      "# This is a comment.\n    LABEL=cloudimg-rootfs\t/\t ext4\tdefaults\t0 1\n".toList).2.2
    "# This is a comment.".toList (by decide)

/-- C7: the binding of `/etc/fstab` to the cloud-image label remover is
a member of the release-agnostic patch set, and every member of that set
is contained verbatim in the effective patch set of every release. -/
theorem C7_release_agnostic_always_applied (reg : PatchRegistry) (release : Str) (p : Patch)
    (hreg : reg.releaseAgnostic = releaseAgnosticPatches)
    (hp : p ∈ releaseAgnosticPatches) :
    (Patch.mk "/etc/fstab".toList PatchFn.removeCloudImgLabel) ∈ releaseAgnosticPatches ∧
      p ∈ reg.effectivePatches release := by
  refine ⟨by simp [releaseAgnosticPatches], ?_⟩
  have hp2 : p ∈ reg.releaseAgnostic := by rw [hreg]; exact hp
  simp only [PatchRegistry.effectivePatches]
  exact List.mem_append_left _ hp2

/-- Witness for C7 at a registry holding the release-agnostic set and no
release-specific sets, queried for release 22.04. -/
theorem C7_witness :
    (Patch.mk "/etc/fstab".toList PatchFn.removeCloudImgLabel) ∈ releaseAgnosticPatches ∧
      (Patch.mk "/etc/fstab".toList PatchFn.removeCloudImgLabel) ∈
        (PatchRegistry.mk releaseAgnosticPatches []).effectivePatches "22.04".toList :=
  C7_release_agnostic_always_applied (PatchRegistry.mk releaseAgnosticPatches [])
    "22.04".toList (Patch.mk "/etc/fstab".toList PatchFn.removeCloudImgLabel)
    rfl (by decide)

end Ubuntu
